import Mathlib

/-!
# DMX512 receiver (`drivers/esp32_dmx/dmx.c`)

A shallow embedding of the frame state machine of `dmx_task`, of `dmx_create`
and of `dmx_get_value`, followed by theorems about them.

Conventions of the embedding:

* `uint8_t` is `Fin 256`; `size_t` is a natural number reduced modulo `2 ^ 32`
  after every arithmetic operation (the target is the 32-bit ESP32);
* `uint8_t channel_data[512]` is a function `Fin 512 → uint8_t`; a store that
  would land outside the array is a `Fault.out_of_bounds_store`;
* the UART receive ring buffer is the list of its unread bytes, oldest first; it is
  fed by the interrupt handler of the driver, also while an event is being handled;
* the body of the `while` loop of `dmx_task` is `dmx_task_step`: it takes the
  receiver, the unread bytes, the event returned by `xQueueReceive` and the bytes
  `late` that arrive between the first and the second call to the driver of a
  handler that makes two, and gives back the receiver and the unread bytes (or a
  fault);
* `xQueueReset` only empties the queue of pending events, which is not part of
  the state: the events given to `dmx_task` are the ones `xQueueReceive`
  returned.
-/

namespace Dmx

/-- One byte. -/
abbrev uint8_t := Fin 256

/-- Number of values of a `size_t` (32 bits on the ESP32). -/
abbrev SIZE_T_MOD : Nat := 4294967296

/-- Source constant `UART_BUFFER_SIZE`: capacity of the receive ring buffer handed to
`uart_driver_install`. -/
def UART_BUFFER_SIZE : Nat := 2048

/-- Source `enum dmx_state`. -/
inductive dmx_state
  | WAIT_BREAK
  | WAIT_START_CODE
  | RECEIVING_CHANNELS
deriving DecidableEq, Repr

/-- Source `struct dmx_struct_t`, without the handles of the operating system
(`dmx_task`, `uart`, `eventQueue`, `quitSemData`, `quitSem`). -/
structure dmx_struct_t where
  is_running : Bool
  state : dmx_state
  channel_data : Fin 512 → uint8_t
  current_channel : Nat

/-- Modelled from the spec: the event kinds of the serial layer (`uart_event_type_t` of
the `driver/uart.h` header, which is not part of the repository). `UART_DATA` is `Data`,
`UART_BREAK` is `Break`, `UART_BUFFER_FULL` is `Overflow`; the other kinds reach the
`default` case of `dmx_task`. -/
inductive uart_event_type_t
  | UART_DATA
  | UART_BREAK
  | UART_BUFFER_FULL
  | UART_FIFO_OVF
  | UART_FRAME_ERR
  | UART_PARITY_ERR
  | UART_DATA_BREAK
  | UART_PATTERN_DET
deriving DecidableEq, Repr

/-- Modelled from the spec: an event of the serial layer (`uart_event_t`), its kind and,
for `UART_DATA`, the number of bytes that are available to read (a `size_t`). -/
structure uart_event_t where
  type : uart_event_type_t
  size : Nat
deriving DecidableEq, Repr

/-- What makes a step of the embedding undefined in C. -/
inductive Fault
  | uninitialised_read
  | out_of_bounds_store
deriving DecidableEq, Repr

/-- Macro `MIN` of `sys/param.h`. -/
def MIN (a b : Nat) : Nat := if a < b then a else b

/-- Subtraction of two `size_t` values, `(a - b) mod 2 ^ 32` (see `size_sub_eq_mod`).
The first branch is the case without wrap-around; it is there so that the difference of
two small values evaluates without reducing modulo `2 ^ 32`. -/
def size_sub (a b : Nat) : Nat :=
  if b ≤ a ∧ a < SIZE_T_MOD then a - b
  else (a + SIZE_T_MOD - b % SIZE_T_MOD) % SIZE_T_MOD

/-- Addition of two `size_t` values, `(a + b) mod 2 ^ 32` (see `size_add_eq_mod`).
The first branch is the case without wrap-around. -/
def size_add (a b : Nat) : Nat :=
  if a + b < SIZE_T_MOD then a + b else (a + b) % SIZE_T_MOD

/-- Modelled from the spec: `flush_input()` discards all buffered unread bytes. -/
def uart_flush_input (_rx : List uint8_t) : List uint8_t := []

/-- Modelled from the spec: `read_bytes(max_count)` with no waiting returns up to
`max_count` already-buffered bytes; the result is the bytes read and the bytes left. -/
def uart_read_bytes (rx : List uint8_t) (length : Nat) : List uint8_t × List uint8_t :=
  (rx.take length, rx.drop length)

/-- The array `channel_data` after the bytes `bs` were copied to the offsets `off`,
`off + 1`, ... : slot `i` holds `bs[i - off]` when there is such a byte and keeps its
value otherwise. -/
def write_at (channel_data : Fin 512 → uint8_t) (off : Nat) (bs : List uint8_t) :
    Fin 512 → uint8_t :=
  fun i => if off ≤ i.val then (bs[i.val - off]?).getD (channel_data i) else channel_data i

/-- The bytes `bs` stored at `channel_data + off`, as `uart_read_bytes` does with the
bytes it read: a fault when one of them would land at offset 512 or beyond, no store at
all when there is no byte. -/
def store_bytes (channel_data : Fin 512 → uint8_t) (off : Nat) (bs : List uint8_t) :
    Except Fault (Fin 512 → uint8_t) :=
  if bs = [] ∨ off + bs.length ≤ 512 then .ok (write_at channel_data off bs)
  else .error Fault.out_of_bounds_store

/-- Body of the `while` loop of source `dmx_task` for one received `event`, with `rx`
the unread bytes of the UART at that moment. Two handlers call the driver twice: in
`WAIT_START_CODE` the read of the start code is followed by a read or a flush, and in
`RECEIVING_CHANNELS` with the cursor at 512 or beyond the flush is followed by the read
the code falls through to. The calls are separate and the buffer is fed by an interrupt
handler, so the bytes `late` that arrive between the two calls are in the buffer at the
second call. A handler with a single call has no such gap: what arrives before or after
that call is among the bytes buffered at this event or at the next one. -/
def dmx_task_step (dmx : dmx_struct_t) (rx : List uint8_t) (event : uart_event_t)
    (late : List uint8_t) : Except Fault (dmx_struct_t × List uint8_t) :=
  match event.type with
  | .UART_DATA =>
    match dmx.state with
    | .WAIT_BREAK => .ok (dmx, uart_flush_input rx)
    | .WAIT_START_CODE =>
      match uart_read_bytes rx 1 with
      | ([], _) => .error Fault.uninitialised_read
      | (startCode :: _, rx1) =>
        let rx2 := rx1 ++ late
        if startCode = 0 then
          let toRead := MIN (size_sub event.size 1) 512
          let r := uart_read_bytes rx2 toRead
          match store_bytes dmx.channel_data 0 r.1 with
          | .error f => .error f
          | .ok cd =>
            .ok ({ dmx with
                    channel_data := cd
                    current_channel := size_add dmx.current_channel (size_sub event.size 1)
                    state := .RECEIVING_CHANNELS }, r.2)
        else .ok (dmx, uart_flush_input rx2)
    | .RECEIVING_CHANNELS =>
      let dmx1 : dmx_struct_t :=
        if dmx.current_channel ≥ 512 then { dmx with state := .WAIT_BREAK } else dmx
      let rx1 := if dmx.current_channel ≥ 512 then uart_flush_input rx ++ late else rx
      let toRead := MIN event.size (size_sub 512 dmx1.current_channel)
      let r := uart_read_bytes rx1 toRead
      match store_bytes dmx1.channel_data dmx1.current_channel r.1 with
      | .error f => .error f
      | .ok cd =>
        .ok ({ dmx1 with
                channel_data := cd
                current_channel := size_add dmx1.current_channel event.size }, r.2)
  | .UART_BREAK => .ok ({ dmx with state := .WAIT_START_CODE }, uart_flush_input rx)
  | .UART_BUFFER_FULL => .ok (dmx, uart_flush_input rx)
  | _ => .ok (dmx, rx)

/-- What the serial layer does around one event: the bytes `arrived` are appended to the
receive buffer and `event` is posted; the bytes `late` arrive while the event is being
handled, between the two calls to the driver (see `dmx_task_step`). -/
structure Input where
  arrived : List uint8_t
  event : uart_event_t
  late : List uint8_t

/-- The `while` loop of `dmx_task` over the inputs of the serial layer, in order. -/
def dmx_task_loop (dmx : dmx_struct_t) (rx : List uint8_t) :
    List Input → Except Fault (dmx_struct_t × List uint8_t)
  | [] => .ok (dmx, rx)
  | i :: rest =>
    match dmx_task_step dmx (rx ++ i.arrived) i.event i.late with
    | .error f => .error f
    | .ok w => dmx_task_loop w.1 w.2 rest

/-- Source `dmx_task`: the input is flushed, then the events are processed in order. -/
def dmx_task (dmx : dmx_struct_t) (rx : List uint8_t) (inputs : List Input) :
    Except Fault (dmx_struct_t × List uint8_t) :=
  dmx_task_loop dmx (uart_flush_input rx) inputs

/-- The receiver that `calloc(1, sizeof(dmx_t))` gives: every field zero. -/
def calloc_dmx : dmx_struct_t where
  is_running := false
  state := .WAIT_BREAK
  channel_data := fun _ => 0
  current_channel := 0

/-- Source `dmx_create`; the arguments say whether `uart_param_config`, `uart_set_pin`,
`uart_driver_install` and `uart_set_mode` returned `ESP_OK`. -/
def dmx_create (param_config_ok set_pin_ok driver_install_ok set_mode_ok : Bool) :
    Option dmx_struct_t :=
  let dmx := calloc_dmx
  if !param_config_ok then none
  else if !set_pin_ok then none
  else if !driver_install_ok then none
  else if !set_mode_ok then none
  else some dmx

/-- Source `dmx_get_value`; `none` is the `NULL` receiver. -/
def dmx_get_value (dmx : Option dmx_struct_t) (channel : Int) : uint8_t :=
  match dmx with
  | none => 0
  | some d =>
    if h : channel < 1 ∨ channel > 512 then 0
    else d.channel_data ⟨(channel - 1).toNat, by omega⟩

/-- A `Data` event of `n` bytes, with no byte arriving while it is handled. -/
def Data (bytes : List uint8_t) : Input := ⟨bytes, ⟨.UART_DATA, bytes.length⟩, []⟩

/-- A `Break` event. -/
def Break : Input := ⟨[], ⟨.UART_BREAK, 0⟩, []⟩

/-- An `Overflow` event. -/
def Overflow : Input := ⟨[], ⟨.UART_BUFFER_FULL, 0⟩, []⟩

/-- The 513 bytes of the frame whose start code is 0 and whose channel `k` (from 1 to
512) holds `k mod 256`. -/
def cyclic_frame : List uint8_t :=
  0 :: (List.range 512).map (fun k => (Fin.ofNat (k + 1) : uint8_t))

/-- An input the serial layer can produce while `rx` is unread: the receive buffer never
holds more than `UART_BUFFER_SIZE` bytes, the bytes that arrive during the step included,
and a `Data(n)` event has `n ≥ 1` and finds at least `n` bytes buffered. -/
def Input.well_formed (rx : List uint8_t) (i : Input) : Prop :=
  (rx ++ i.arrived).length + i.late.length ≤ UART_BUFFER_SIZE ∧
  (i.event.type = .UART_DATA → 1 ≤ i.event.size ∧ i.event.size ≤ (rx ++ i.arrived).length)

/-- The receivers (with the unread bytes of their UART) that `dmx_task` can be in,
starting on a freshly created receiver and processing well-formed inputs. -/
inductive Reachable : dmx_struct_t × List uint8_t → Prop
  | start (running : Bool) (rx : List uint8_t) :
      Reachable ({ calloc_dmx with is_running := running }, uart_flush_input rx)
  | step {w w' : dmx_struct_t × List uint8_t} (i : Input) :
      Reachable w → i.well_formed w.2 →
      dmx_task_step w.1 (w.2 ++ i.arrived) i.event i.late = .ok w' → Reachable w'

/-! ## Lemmas on the store and on one step -/

theorem write_at_nil (cd : Fin 512 → uint8_t) (off : Nat) : write_at cd off [] = cd := by
  funext i
  simp [write_at]

theorem write_at_below (cd : Fin 512 → uint8_t) (off : Nat) (bs : List uint8_t)
    (i : Fin 512) (h : i.val < off) : write_at cd off bs i = cd i := by
  simp [write_at, Nat.not_le.mpr h]

theorem write_at_above (cd : Fin 512 → uint8_t) (off : Nat) (bs : List uint8_t)
    (i : Fin 512) (h : off + bs.length ≤ i.val) : write_at cd off bs i = cd i := by
  unfold write_at
  split
  · have hnone : bs[i.val - off]? = none := List.getElem?_eq_none (by omega)
    rw [hnone]
    rfl
  · rfl

theorem write_at_inside (cd : Fin 512 → uint8_t) (off : Nat) (bs : List uint8_t)
    (i : Fin 512) (h1 : off ≤ i.val) (h2 : i.val < off + bs.length) :
    bs[i.val - off]? = some (write_at cd off bs i) := by
  have hlt : i.val - off < bs.length := by omega
  unfold write_at
  rw [if_pos h1, List.getElem?_eq_getElem hlt]
  rfl

theorem store_bytes_ok (cd : Fin 512 → uint8_t) (off : Nat) (bs : List uint8_t)
    (h : bs = [] ∨ off + bs.length ≤ 512) :
    store_bytes cd off bs = .ok (write_at cd off bs) := by
  unfold store_bytes
  rw [if_pos h]

theorem store_bytes_fault (cd : Fin 512 → uint8_t) (off : Nat) (bs : List uint8_t)
    (h1 : bs ≠ []) (h2 : 512 < off + bs.length) :
    store_bytes cd off bs = .error Fault.out_of_bounds_store := by
  unfold store_bytes
  rw [if_neg]
  rintro (h | h)
  · exact h1 h
  · omega

theorem size_sub_eq_mod (a b : Nat) :
    size_sub a b = (a + SIZE_T_MOD - b % SIZE_T_MOD) % SIZE_T_MOD := by
  unfold size_sub
  split
  · rename_i h
    simp only [SIZE_T_MOD] at *
    omega
  · rfl

theorem size_add_eq_mod (a b : Nat) : size_add a b = (a + b) % SIZE_T_MOD := by
  unfold size_add
  split
  · rename_i h
    exact (Nat.mod_eq_of_lt h).symm
  · rfl

theorem size_sub_small (a b : Nat) (hb : b ≤ a) (ha : a < SIZE_T_MOD) :
    size_sub a b = a - b := by
  unfold size_sub
  rw [if_pos ⟨hb, ha⟩]

theorem size_add_small (a b : Nat) (h : a + b < SIZE_T_MOD) : size_add a b = a + b := by
  unfold size_add
  rw [if_pos h]

theorem MIN_eq_min (a b : Nat) : MIN a b = min a b := by
  unfold MIN
  split <;> omega

theorem step_break (dmx : dmx_struct_t) (rx : List uint8_t) (size : Nat)
    (late : List uint8_t) :
    dmx_task_step dmx rx ⟨.UART_BREAK, size⟩ late =
      .ok ({ dmx with state := .WAIT_START_CODE }, []) := rfl

theorem step_data_wait_break (dmx : dmx_struct_t) (rx : List uint8_t) (n : Nat)
    (late : List uint8_t) (hs : dmx.state = .WAIT_BREAK) :
    dmx_task_step dmx rx ⟨.UART_DATA, n⟩ late = .ok (dmx, []) := by
  simp [dmx_task_step, hs, uart_flush_input]

theorem step_data_start_empty (dmx : dmx_struct_t) (n : Nat) (late : List uint8_t)
    (hs : dmx.state = .WAIT_START_CODE) :
    dmx_task_step dmx [] ⟨.UART_DATA, n⟩ late = .error Fault.uninitialised_read := by
  simp [dmx_task_step, hs, uart_read_bytes]

theorem step_data_start_nonzero (dmx : dmx_struct_t) (b : uint8_t) (rest : List uint8_t)
    (n : Nat) (late : List uint8_t) (hs : dmx.state = .WAIT_START_CODE) (hb : b ≠ 0) :
    dmx_task_step dmx (b :: rest) ⟨.UART_DATA, n⟩ late = .ok (dmx, []) := by
  simp [dmx_task_step, hs, uart_read_bytes, uart_flush_input, hb]

/-- `WAIT_START_CODE`, start code 0: the next `MIN (size - 1) 512` buffered bytes go to
the offsets `0 ..`, the cursor grows by `size - 1` (modulo `2 ^ 32`), the state becomes
`RECEIVING_CHANNELS`; bytes that arrive after the start code was read queue behind the
buffered ones. -/
theorem step_data_start_zero_late (dmx : dmx_struct_t) (rest : List uint8_t) (n : Nat)
    (late : List uint8_t) (hs : dmx.state = .WAIT_START_CODE) :
    dmx_task_step dmx (0 :: rest) ⟨.UART_DATA, n⟩ late =
      .ok ({ dmx with
              channel_data := write_at dmx.channel_data 0
                ((rest ++ late).take (MIN (size_sub n 1) 512))
              current_channel := size_add dmx.current_channel (size_sub n 1)
              state := .RECEIVING_CHANNELS },
            (rest ++ late).drop (MIN (size_sub n 1) 512)) := by
  have hst := store_bytes_ok dmx.channel_data 0
    ((rest ++ late).take (MIN (size_sub n 1) 512))
    (Or.inr (by rw [MIN_eq_min, List.length_take]; omega))
  simp [dmx_task_step, hs, uart_read_bytes, hst]

/-- `WAIT_START_CODE`, start code 0, no byte arriving during the step. -/
theorem step_data_start_zero (dmx : dmx_struct_t) (rest : List uint8_t) (n : Nat)
    (hs : dmx.state = .WAIT_START_CODE) :
    dmx_task_step dmx (0 :: rest) ⟨.UART_DATA, n⟩ [] =
      .ok ({ dmx with
              channel_data := write_at dmx.channel_data 0 (rest.take (MIN (size_sub n 1) 512))
              current_channel := size_add dmx.current_channel (size_sub n 1)
              state := .RECEIVING_CHANNELS },
            rest.drop (MIN (size_sub n 1) 512)) := by
  have h := step_data_start_zero_late dmx rest n [] hs
  rw [List.append_nil] at h
  exact h

/-- `RECEIVING_CHANNELS` with the cursor at 512 or beyond, no byte arriving between the
flush and the read: the read gets no byte and the table is not touched; the state
becomes `WAIT_BREAK` and the cursor still grows by `size` (modulo `2 ^ 32`). -/
theorem step_data_receiving_full (dmx : dmx_struct_t) (rx : List uint8_t) (n : Nat)
    (hs : dmx.state = .RECEIVING_CHANNELS) (hk : 512 ≤ dmx.current_channel) :
    dmx_task_step dmx rx ⟨.UART_DATA, n⟩ [] =
      .ok ({ dmx with
              state := .WAIT_BREAK
              current_channel := size_add dmx.current_channel n }, []) := by
  have hst := store_bytes_ok dmx.channel_data dmx.current_channel [] (Or.inl rfl)
  rw [write_at_nil] at hst
  simp [dmx_task_step, hs, hk, uart_read_bytes, uart_flush_input, hst]

/-- `RECEIVING_CHANNELS` with the cursor exactly at 512: the length of the read is
clamped to `512 - 512 = 0`, so the bytes that arrive after the flush stay buffered and
the table is not touched. -/
theorem step_data_receiving_at_512 (dmx : dmx_struct_t) (rx : List uint8_t) (n : Nat)
    (late : List uint8_t) (hs : dmx.state = .RECEIVING_CHANNELS)
    (hcc : dmx.current_channel = 512) :
    dmx_task_step dmx rx ⟨.UART_DATA, n⟩ late =
      .ok ({ dmx with
              state := .WAIT_BREAK
              current_channel := size_add dmx.current_channel n }, late) := by
  have hsub : size_sub 512 512 = 0 := by decide
  have hmin : MIN n 0 = 0 := by
    rw [MIN_eq_min]
    omega
  have hst := store_bytes_ok dmx.channel_data 512 [] (Or.inl rfl)
  rw [write_at_nil] at hst
  simp [dmx_task_step, hs, hcc, uart_read_bytes, uart_flush_input, hsub, hmin, hst]

/-- `RECEIVING_CHANNELS` with the cursor beyond 512: `512 - current_channel` wraps to a
large `size_t`, the length of the read is not clamped, and a byte that arrives between the
flush and the read is stored at `channel_data + current_channel`, outside the table. -/
theorem step_data_oversize_late_fault (dmx : dmx_struct_t) (rx : List uint8_t) (n : Nat)
    (late : List uint8_t) (hs : dmx.state = .RECEIVING_CHANNELS)
    (hk : 512 < dmx.current_channel) (hcc : dmx.current_channel < SIZE_T_MOD)
    (hn : 1 ≤ n) (hl : late ≠ []) :
    dmx_task_step dmx rx ⟨.UART_DATA, n⟩ late = .error Fault.out_of_bounds_store := by
  have hpos : 0 < MIN n (size_sub 512 dmx.current_channel) := by
    rw [MIN_eq_min, size_sub_eq_mod]
    simp only [SIZE_T_MOD] at *
    omega
  have hlate : 0 < late.length := List.length_pos.mpr hl
  have hlen : 0 < (late.take (MIN n (size_sub 512 dmx.current_channel))).length := by
    rw [List.length_take]
    omega
  have hst := store_bytes_fault dmx.channel_data dmx.current_channel
    (late.take (MIN n (size_sub 512 dmx.current_channel)))
    (List.length_pos.mp hlen) (by omega)
  have hk2 : 512 ≤ dmx.current_channel := by omega
  simp [dmx_task_step, hs, hk2, uart_read_bytes, uart_flush_input, hst]

/-- `RECEIVING_CHANNELS` with the cursor below 512: the first `MIN size (512 - cursor)`
buffered bytes go to the offsets `cursor ..`, the cursor grows by `size`. -/
theorem step_data_receiving (dmx : dmx_struct_t) (rx : List uint8_t) (n : Nat)
    (late : List uint8_t) (hs : dmx.state = .RECEIVING_CHANNELS)
    (hk : dmx.current_channel < 512) :
    dmx_task_step dmx rx ⟨.UART_DATA, n⟩ late =
      .ok ({ dmx with
              channel_data := write_at dmx.channel_data dmx.current_channel
                (rx.take (MIN n (512 - dmx.current_channel)))
              current_channel := size_add dmx.current_channel n },
            rx.drop (MIN n (512 - dmx.current_channel))) := by
  have hsub : size_sub 512 dmx.current_channel = 512 - dmx.current_channel :=
    size_sub_small 512 dmx.current_channel (by omega) (by decide)
  have hst := store_bytes_ok dmx.channel_data dmx.current_channel
    (rx.take (MIN n (512 - dmx.current_channel)))
    (Or.inr (by rw [MIN_eq_min, List.length_take]; omega))
  simp [dmx_task_step, hs, Nat.not_le.mpr hk, uart_read_bytes, hsub, hst]

/-- A step is defined (no out-of-bounds store, no read of an uninitialised start code) as
soon as a `Data` event finds at least one byte buffered and no byte arrives between the
flush and the read of the branch with the cursor beyond 512. -/
theorem step_defined (dmx : dmx_struct_t) (rx : List uint8_t) (event : uart_event_t)
    (late : List uint8_t) (h : event.type = .UART_DATA → rx ≠ [])
    (hlate : dmx.state = .RECEIVING_CHANNELS → 512 < dmx.current_channel → late = []) :
    ∃ w, dmx_task_step dmx rx event late = .ok w := by
  obtain ⟨t, n⟩ := event
  cases t
  case UART_DATA =>
    have hrx : rx ≠ [] := h rfl
    cases hs : dmx.state
    · exact ⟨_, step_data_wait_break dmx rx n late hs⟩
    · obtain ⟨b, rest, rfl⟩ := List.exists_cons_of_ne_nil hrx
      by_cases hb : b = 0
      · subst hb
        exact ⟨_, step_data_start_zero_late dmx rest n late hs⟩
      · exact ⟨_, step_data_start_nonzero dmx b rest n late hs hb⟩
    · by_cases hk : 512 ≤ dmx.current_channel
      · by_cases hcc : dmx.current_channel = 512
        · exact ⟨_, step_data_receiving_at_512 dmx rx n late hs hcc⟩
        · have hnil : late = [] := hlate hs (by omega)
          subst hnil
          exact ⟨_, step_data_receiving_full dmx rx n hs hk⟩
      · exact ⟨_, step_data_receiving dmx rx n late hs (Nat.not_le.mp hk)⟩
  all_goals exact ⟨_, rfl⟩

theorem well_formed_nonempty (rx : List uint8_t) (i : Input) (hi : i.well_formed rx)
    (ht : i.event.type = .UART_DATA) : rx ++ i.arrived ≠ [] := by
  have h := hi.2 ht
  intro hnil
  rw [hnil] at h
  simp at h
  omega

theorem dmx_task_loop_cons (dmx : dmx_struct_t) (rx : List uint8_t) (i : Input)
    (rest : List Input) (w : dmx_struct_t × List uint8_t)
    (h : dmx_task_step dmx (rx ++ i.arrived) i.event i.late = .ok w) :
    dmx_task_loop dmx rx (i :: rest) = dmx_task_loop w.1 w.2 rest := by
  show (match dmx_task_step dmx (rx ++ i.arrived) i.event i.late with
        | .error f => Except.error f
        | .ok w => dmx_task_loop w.1 w.2 rest) = _
  rw [h]

theorem dmx_get_value_nat (d : dmx_struct_t) (c : Nat) (h1 : 1 ≤ c) (h2 : c ≤ 512) :
    dmx_get_value (some d) (c : Int) = d.channel_data ⟨c - 1, by omega⟩ := by
  have hn : ¬ ((c : Int) < 1 ∨ (c : Int) > 512) := by omega
  simp only [dmx_get_value, dif_neg hn]
  congr 1
  apply Fin.ext
  show ((c : Int) - 1).toNat = c - 1
  omega

/-- What `dmx_task` does on a fresh receiver with `[Break, Data]` when the data starts
with the start code 0. -/
theorem fresh_break_data (rest : List uint8_t) :
    dmx_task calloc_dmx [] [Break, Data (0 :: rest)] =
      .ok ({ calloc_dmx with
              channel_data := write_at calloc_dmx.channel_data 0
                (rest.take (MIN (size_sub (rest.length + 1) 1) 512))
              current_channel := size_add 0 (size_sub (rest.length + 1) 1)
              state := .RECEIVING_CHANNELS },
            rest.drop (MIN (size_sub (rest.length + 1) 1) 512)) := by
  show dmx_task_loop calloc_dmx [] [Break, Data (0 :: rest)] = _
  rw [dmx_task_loop_cons calloc_dmx [] Break [Data (0 :: rest)] _
    (step_break calloc_dmx _ 0 _)]
  rw [dmx_task_loop_cons _ [] (Data (0 :: rest)) [] _
    (step_data_start_zero { calloc_dmx with state := .WAIT_START_CODE } rest
      (rest.length + 1) rfl)]
  rfl

/-- The reachable state and the run behind C1: an earlier frame of two channels, then
the frame `0x00, 0xAA, 0xBB` in two `Data` events. -/
theorem second_frame_run :
    ∃ w0, dmx_task calloc_dmx [] [Break, Data [0, 1, 2]] = .ok w0 ∧ Reachable w0 ∧
      ∃ w1, dmx_task_loop w0.1 w0.2 [Break, Data [0, 0xAA], Data [0xBB]] = .ok w1 ∧
        dmx_get_value (some w1.1) 1 = 0xAA ∧ dmx_get_value (some w1.1) 2 = 2 ∧
        dmx_get_value (some w1.1) 4 = 0xBB ∧ w1.1.current_channel = 4 :=
  ⟨_, rfl,
    Reachable.step (Data [0, 1, 2])
      (Reachable.step Break (Reachable.start false [])
        (by unfold Input.well_formed; decide) rfl)
      (by unfold Input.well_formed; decide) rfl,
    _, rfl, by decide, by decide, by decide, by decide⟩

/-- The `Data` events that follow the first one of a frame: in `RECEIVING_CHANNELS`, with
no byte left unread, with the cursor on the number of channel bytes `done` stored so far
and those bytes in the first slots, the chunks that still fit in the table are appended
to them. -/
theorem receive_chunks (chunks : List (List uint8_t)) :
    ∀ (dmx : dmx_struct_t) (done : List uint8_t),
      dmx.state = .RECEIVING_CHANNELS → dmx.current_channel = done.length →
      (∀ i : Fin 512, i.val < done.length → done[i.val]? = some (dmx.channel_data i)) →
      (∀ c ∈ chunks, c ≠ []) → done.length + chunks.flatten.length ≤ 512 →
      ∃ w, dmx_task_loop dmx [] (chunks.map Data) = .ok w ∧
        w.1.state = .RECEIVING_CHANNELS ∧
        w.1.current_channel = done.length + chunks.flatten.length ∧ w.2 = [] ∧
        ∀ i : Fin 512, i.val < done.length + chunks.flatten.length →
          (done ++ chunks.flatten)[i.val]? = some (w.1.channel_data i) := by
  induction chunks with
  | nil =>
    intro dmx done hs hcc htab _ _
    refine ⟨(dmx, []), rfl, hs, by simpa using hcc, rfl, fun i hi => ?_⟩
    simpa using htab i (by simpa using hi)
  | cons c cs ih =>
    intro dmx done hs hcc htab hne hlen
    have hcpos : 0 < c.length := List.length_pos.mpr (hne c (List.mem_cons_self _ _))
    rw [List.flatten_cons, List.length_append] at hlen
    have hk : dmx.current_channel < 512 := by omega
    have hmin : MIN c.length (512 - dmx.current_channel) = c.length := by
      rw [MIN_eq_min]
      omega
    have hstep := step_data_receiving dmx c c.length [] hs hk
    rw [hmin, List.take_length, List.drop_length,
      size_add_small _ _ (by simp only [SIZE_T_MOD]; omega)] at hstep
    obtain ⟨w, hw, hws, hwcc, hwrx, hwtab⟩ :=
      ih { dmx with
            channel_data := write_at dmx.channel_data dmx.current_channel c
            current_channel := dmx.current_channel + c.length }
        (done ++ c) hs (by simp [hcc])
        (fun i hi => by
          rw [List.length_append] at hi
          by_cases hlt : i.val < done.length
          · rw [List.getElem?_append_left hlt]
            show _ = some (write_at dmx.channel_data dmx.current_channel c i)
            rw [write_at_below _ _ _ i (by omega)]
            exact htab i hlt
          · rw [List.getElem?_append_right (Nat.not_lt.mp hlt), ← hcc]
            exact write_at_inside _ _ _ i (by omega) (by omega))
        (fun c' hc' => hne c' (List.mem_cons_of_mem _ hc'))
        (by rw [List.length_append]; omega)
    refine ⟨w, ?_, hws, ?_, hwrx, fun i hi => ?_⟩
    · rw [List.map_cons, dmx_task_loop_cons dmx [] (Data c) _ _ hstep]
      exact hw
    · rw [hwcc, List.flatten_cons, List.length_append, List.length_append]
      omega
    · rw [List.flatten_cons, ← List.append_assoc]
      apply hwtab
      rw [List.flatten_cons, List.length_append] at hi
      rw [List.length_append]
      omega

/-- What the receiver is built for, and what holds as long as the cursor is 0 when the
frame begins (as on a fresh receiver): a valid frame, start code 0 and at most 512
channel bytes, delivered as a `Break` and then `Data` events of at least one byte each,
is stored in order, so that `dmx_get_value c` is channel byte `c` of the frame. -/
theorem frame_decoded_of_cursor_zero (dmx : dmx_struct_t) (rx : List uint8_t)
    (channels : List uint8_t) (chunks : List (List uint8_t))
    (hcc : dmx.current_channel = 0) (hlen : channels.length ≤ 512)
    (hne : ∀ c ∈ chunks, c ≠ []) (hflat : chunks.flatten = 0 :: channels) :
    ∃ w, dmx_task_loop dmx rx (Break :: chunks.map Data) = .ok w ∧
      w.1.state = .RECEIVING_CHANNELS ∧ w.1.current_channel = channels.length ∧
      ∀ c : Nat, 1 ≤ c → c ≤ channels.length →
        channels[c - 1]? = some (dmx_get_value (some w.1) c) := by
  cases chunks with
  | nil => simp at hflat
  | cons c1 cs =>
    have hc1 : c1 ≠ [] := hne c1 (List.mem_cons_self _ _)
    obtain ⟨b, r1, rfl⟩ := List.exists_cons_of_ne_nil hc1
    rw [List.flatten_cons, List.cons_append] at hflat
    obtain ⟨hb, hch⟩ := List.cons.inj hflat
    subst hb
    subst hch
    rw [List.length_append] at hlen
    have hsub : size_sub (r1.length + 1) 1 = r1.length :=
      size_sub_small (r1.length + 1) 1 (by omega) (by simp only [SIZE_T_MOD]; omega)
    have hmin : MIN r1.length 512 = r1.length := by
      rw [MIN_eq_min]
      omega
    have hstep := step_data_start_zero { dmx with state := .WAIT_START_CODE } r1
      (r1.length + 1) rfl
    rw [hsub, hmin, List.take_length, List.drop_length] at hstep
    have hadd : size_add dmx.current_channel r1.length = r1.length := by
      rw [hcc, size_add_small 0 r1.length (by simp only [SIZE_T_MOD]; omega)]
      omega
    obtain ⟨w, hw, hws, hwcc, -, hwtab⟩ :=
      receive_chunks cs
        { dmx with
            channel_data := write_at dmx.channel_data 0 r1
            current_channel := size_add dmx.current_channel r1.length
            state := .RECEIVING_CHANNELS }
        r1 rfl hadd
        (fun i hi => write_at_inside dmx.channel_data 0 r1 i (Nat.zero_le _) (by omega))
        (fun c' hc' => hne c' (List.mem_cons_of_mem _ hc'))
        hlen
    refine ⟨w, ?_, hws, by rw [hwcc, List.length_append], fun c h1 h2 => ?_⟩
    · rw [dmx_task_loop_cons dmx rx Break _ _ (step_break dmx _ 0 _), List.map_cons,
        dmx_task_loop_cons _ [] (Data (0 :: r1)) _ _ hstep]
      exact hw
    · rw [List.length_append] at h2
      rw [dmx_get_value_nat _ c h1 (by omega)]
      exact hwtab ⟨c - 1, by omega⟩ (by show c - 1 < _; omega)

/-- Without a byte arriving between the flush and the read of the branch with the cursor
beyond 512, every step from a reachable state on a well-formed event is defined and
performs no store beyond the table. -/
theorem stores_stay_in_table_without_late_byte (w : dmx_struct_t × List uint8_t)
    (hw : Reachable w) (i : Input) (hi : i.well_formed w.2)
    (hlate : w.1.state = .RECEIVING_CHANNELS → 512 < w.1.current_channel → i.late = []) :
    ∃ w', dmx_task_step w.1 (w.2 ++ i.arrived) i.event i.late = .ok w' ∧ Reachable w' := by
  obtain ⟨w', hw'⟩ := step_defined w.1 (w.2 ++ i.arrived) i.event i.late
    (well_formed_nonempty w.2 i hi) hlate
  exact ⟨w', hw', Reachable.step i hw hi hw'⟩

set_option maxRecDepth 100000 in
/-- The reachable state and the step behind C3: a full frame, then the first two bytes of
the next frame leave the cursor at 513 in `RECEIVING_CHANNELS`; the next `Data(1)` event
with one byte arriving after the flush is a store at offset 513. -/
theorem late_byte_run :
    ∃ w, dmx_task calloc_dmx [] [Break, Data cyclic_frame, Break, Data [0, 0xAA]] = .ok w ∧
      Reachable w ∧ w.1.state = .RECEIVING_CHANNELS ∧ w.1.current_channel = 513 ∧
      w.2 = [] ∧ Input.well_formed w.2 ⟨[0xBB], ⟨.UART_DATA, 1⟩, [0x55]⟩ ∧
      MIN 1 (size_sub 512 w.1.current_channel) = 1 ∧
      dmx_task_step w.1 (w.2 ++ [0xBB]) ⟨.UART_DATA, 1⟩ [0x55] =
        .error Fault.out_of_bounds_store ∧
      ∃ w', dmx_task_step w.1 (w.2 ++ [0xBB]) ⟨.UART_DATA, 1⟩ [] = .ok w' ∧
        w'.1.channel_data = w.1.channel_data :=
  ⟨_, rfl,
    Reachable.step (Data [0, 0xAA])
      (Reachable.step Break
        (Reachable.step (Data cyclic_frame)
          (Reachable.step Break (Reachable.start false [])
            (by unfold Input.well_formed; decide) rfl)
          (by unfold Input.well_formed; decide) rfl)
        (by unfold Input.well_formed; decide) rfl)
      (by unfold Input.well_formed; decide) rfl,
    by decide, by decide, by decide, by unfold Input.well_formed; decide, by decide,
    step_data_oversize_late_fault _ _ 1 [0x55] (by decide) (by decide) (by decide)
      (by decide) (by decide),
    _, step_data_receiving_full _ _ 1 (by decide) (by decide), rfl⟩

/-! ## The claims -/

/-- C1 (the code departs from the claim): the cursor is never reset, so a valid frame that
arrives in several `Data` events after an earlier frame is stored at the wrong offsets.
`[Break, Data(0, 1, 2)]` takes a fresh receiver to a reachable state; the valid frame
`0x00, 0xAA, 0xBB` delivered as `[Break, Data(0x00, 0xAA), Data(0xBB)]` then leaves
`dmx_get_value(2) = 2` (the byte of the earlier frame) and `0xBB` in slot 4. Hence it is
not true that from every reachable state every valid frame, delivered as a `Break` and
`Data` events of at least one byte each, is readable through `dmx_get_value`. -/
theorem C1_second_frame_misplaced :
    (∃ w0, dmx_task calloc_dmx [] [Break, Data [0, 1, 2]] = .ok w0 ∧ Reachable w0 ∧
      ∃ w1, dmx_task_loop w0.1 w0.2 [Break, Data [0, 0xAA], Data [0xBB]] = .ok w1 ∧
        dmx_get_value (some w1.1) 1 = 0xAA ∧ dmx_get_value (some w1.1) 2 = 2 ∧
        dmx_get_value (some w1.1) 4 = 0xBB ∧ w1.1.current_channel = 4) ∧
    ¬ (∀ w : dmx_struct_t × List uint8_t, Reachable w →
        ∀ (channels : List uint8_t) (chunks : List (List uint8_t)),
          1 ≤ channels.length → channels.length ≤ 512 → chunks ≠ [] →
          (∀ c ∈ chunks, c ≠ []) → chunks.flatten = 0 :: channels →
          ∃ w', dmx_task_loop w.1 w.2 (Break :: chunks.map Data) = .ok w' ∧
            ∀ c : Nat, 1 ≤ c → c ≤ channels.length →
              channels[c - 1]? = some (dmx_get_value (some w'.1) c)) := by
  refine ⟨second_frame_run, fun hall => ?_⟩
  obtain ⟨w0, -, hreach, w1, hrun, -, h2, -, -⟩ := second_frame_run
  obtain ⟨w', hrun', hget⟩ := hall w0 hreach [0xAA, 0xBB] [[0, 0xAA], [0xBB]]
    (by decide) (by decide) (by decide) (by decide) rfl
  have hw : w' = w1 := by
    have h := hrun'.symm.trans hrun
    exact Except.ok.inj h
  subst hw
  have h := hget 2 (by decide) (by decide)
  rw [show ((2 : Nat) : Int) = 2 from rfl, h2] at h
  exact absurd h (by decide)

/-- C2 (the code departs from the claim): a `UART_BREAK` event sets `state` to
`WAIT_START_CODE` in every state, flushes the input, and leaves `current_channel` as it
was instead of resetting it to 0; after `[Break, Data(0x00, 0xAA, 0xBB), Break]` on a
fresh receiver the cursor is still 2. -/
theorem C2_break_keeps_current_channel :
    (∀ (dmx : dmx_struct_t) (rx : List uint8_t) (size : Nat) (late : List uint8_t),
      ∃ w, dmx_task_step dmx rx ⟨.UART_BREAK, size⟩ late = .ok w ∧
        w.1.state = .WAIT_START_CODE ∧ w.1.current_channel = dmx.current_channel ∧
        w.1.channel_data = dmx.channel_data ∧ w.2 = []) ∧
    (∃ w, dmx_task calloc_dmx [] [Break, Data [0, 0xAA, 0xBB], Break] = .ok w ∧
        w.1.state = .WAIT_START_CODE ∧ w.1.current_channel = 2) :=
  ⟨fun dmx rx size late => ⟨_, step_break dmx rx size late, rfl, rfl, rfl, rfl⟩,
   ⟨_, rfl, by decide, by decide⟩⟩

/-- C3 (the code departs from the claim): in `RECEIVING_CHANNELS` with
`current_channel > 512` the code flushes the input and then, with no `else`, still calls
`uart_read_bytes` at `channel_data + current_channel` with the length
`MIN(event.size, 512 - current_channel)`, where the subtraction wraps to a large `size_t`
and clamps nothing. The flush and the read are separate calls to the driver, so a byte
that arrives between them is stored beyond the table. After
`[Break, Data(cyclic_frame), Break, Data(0x00, 0xAA)]` on a fresh receiver the reachable
state is `RECEIVING_CHANNELS` with `current_channel = 513`; the well-formed `Data(1)`
event with one byte arriving after the flush is a store at offset 513
(`Fault.out_of_bounds_store`), while with no such byte the same event stores nothing.
Hence it is not true that from every reachable state the step for every well-formed event
performs no store at offset 512 or beyond. -/
theorem C3_late_byte_stored_past_table :
    (∃ w, dmx_task calloc_dmx [] [Break, Data cyclic_frame, Break, Data [0, 0xAA]] = .ok w ∧
      Reachable w ∧ w.1.state = .RECEIVING_CHANNELS ∧ w.1.current_channel = 513 ∧
      w.2 = [] ∧ Input.well_formed w.2 ⟨[0xBB], ⟨.UART_DATA, 1⟩, [0x55]⟩ ∧
      MIN 1 (size_sub 512 w.1.current_channel) = 1 ∧
      dmx_task_step w.1 (w.2 ++ [0xBB]) ⟨.UART_DATA, 1⟩ [0x55] =
        .error Fault.out_of_bounds_store ∧
      ∃ w', dmx_task_step w.1 (w.2 ++ [0xBB]) ⟨.UART_DATA, 1⟩ [] = .ok w' ∧
        w'.1.channel_data = w.1.channel_data) ∧
    ¬ (∀ w : dmx_struct_t × List uint8_t, Reachable w →
        ∀ i : Input, i.well_formed w.2 →
          ∃ w', dmx_task_step w.1 (w.2 ++ i.arrived) i.event i.late = .ok w') := by
  refine ⟨late_byte_run, fun hall => ?_⟩
  obtain ⟨w, -, hreach, -, -, -, hwf, -, hfault, -⟩ := late_byte_run
  obtain ⟨w', hw'⟩ := hall w hreach ⟨[0xBB], ⟨.UART_DATA, 1⟩, [0x55]⟩ hwf
  have h := hfault.symm.trans hw'
  exact absurd h (by simp)

/-- C4: `dmx_get_value` is a total function of the receiver and the channel that returns
a byte and nothing else (it cannot fail or change the receiver); it returns 0 for the
`NULL` receiver, 0 for a channel below 1 or above 512, and `channel_data[channel - 1]`
otherwise. -/
theorem C4_dmx_get_value :
    (∀ channel : Int, dmx_get_value none channel = 0) ∧
    (∀ (d : dmx_struct_t) (channel : Int), channel < 1 ∨ channel > 512 →
      dmx_get_value (some d) channel = 0) ∧
    (∀ (d : dmx_struct_t) (channel : Int) (h1 : 1 ≤ channel) (h2 : channel ≤ 512),
      dmx_get_value (some d) channel = d.channel_data ⟨(channel - 1).toNat, by omega⟩) := by
  refine ⟨fun _ => rfl, fun d channel h => ?_, fun d channel h1 h2 => ?_⟩
  · simp [dmx_get_value, h]
  · have hn : ¬ (channel < 1 ∨ channel > 512) := by omega
    simp [dmx_get_value, hn]

theorem C4_dmx_get_value_witness :
    dmx_get_value (some { calloc_dmx with channel_data := fun i => if i.val = 6 then 9 else 0 })
        513 = 0 ∧
    dmx_get_value (some { calloc_dmx with channel_data := fun i => if i.val = 6 then 9 else 0 })
        7 = 9 :=
  ⟨C4_dmx_get_value.2.1 _ 513 (Or.inr (by decide)),
   (C4_dmx_get_value.2.2 _ 7 (by decide) (by decide)).trans (by decide)⟩

set_option maxRecDepth 100000 in
/-- C5: on a freshly created receiver (table all zero, cursor 0, `WAIT_BREAK`), for every
data of `n` bytes with `1 ≤ n ≤ 513` whose first byte is 0, `[Break, Data(n)]` leaves
`dmx_get_value(c)` equal to byte `c` of the data for `1 ≤ c ≤ n - 1`, the state
`RECEIVING_CHANNELS` and `current_channel = n - 1`; with the 513 bytes of `cyclic_frame`,
`dmx_get_value(1) = 0x01`, `dmx_get_value(512) = 0x00` and `current_channel = 512`. -/
theorem C5_fresh_break_data :
    (∀ data : List uint8_t, 1 ≤ data.length → data.length ≤ 513 → data.head? = some 0 →
      ∃ w, dmx_task calloc_dmx [] [Break, Data data] = .ok w ∧
        w.1.state = .RECEIVING_CHANNELS ∧ w.1.current_channel = data.length - 1 ∧
        ∀ c : Nat, 1 ≤ c → c ≤ data.length - 1 →
          data[c]? = some (dmx_get_value (some w.1) c)) ∧
    (∃ w, dmx_task calloc_dmx [] [Break, Data cyclic_frame] = .ok w ∧
        dmx_get_value (some w.1) 1 = 0x01 ∧ dmx_get_value (some w.1) 512 = 0x00 ∧
        w.1.state = .RECEIVING_CHANNELS ∧ w.1.current_channel = 512) := by
  refine ⟨fun data h1 h2 h0 => ?_, ⟨_, rfl, by decide, by decide, by decide, by decide⟩⟩
  obtain ⟨rest, rfl⟩ := List.head?_eq_some_iff.mp h0
  have hlen : rest.length ≤ 512 := by simpa using h2
  have hsub : size_sub (rest.length + 1) 1 = rest.length :=
    size_sub_small (rest.length + 1) 1 (by omega) (by simp only [SIZE_T_MOD]; omega)
  have hmin : MIN rest.length 512 = rest.length := by rw [MIN_eq_min]; omega
  have hrun := fresh_break_data rest
  rw [hsub, hmin, List.take_length] at hrun
  refine ⟨_, hrun, rfl, ?_, fun c hc1 hc2 => ?_⟩
  · show size_add 0 rest.length = (0 :: rest).length - 1
    rw [size_add_small 0 rest.length (by simp only [SIZE_T_MOD]; omega)]
    simp
  · have hc3 : c ≤ rest.length := by simpa using hc2
    rw [dmx_get_value_nat _ c hc1 (by omega)]
    have h := write_at_inside calloc_dmx.channel_data 0 rest ⟨c - 1, by omega⟩
      (Nat.zero_le _) (by show c - 1 < 0 + rest.length; omega)
    obtain ⟨c', rfl⟩ : ∃ c', c = c' + 1 := ⟨c - 1, by omega⟩
    rw [List.getElem?_cons_succ]
    exact h

set_option maxRecDepth 100000 in
theorem C5_fresh_break_data_witness :
    ∃ w, dmx_task calloc_dmx [] [Break, Data [0, 0x11, 0x22, 0x33]] = .ok w ∧
      w.1.state = .RECEIVING_CHANNELS ∧ w.1.current_channel = 3 ∧
      ∀ c : Nat, 1 ≤ c → c ≤ 3 →
        [0, 0x11, 0x22, 0x33][c]? = some (dmx_get_value (some w.1) c) :=
  C5_fresh_break_data.1 [0, 0x11, 0x22, 0x33] (by decide) (by decide) rfl

/-- C7: in `WAIT_START_CODE`, a `Data(n)` event (any `n`, so also every `n ≥ 1`) whose
first buffered byte is not 0 leaves the whole receiver as it was (all 512 slots, the
state `WAIT_START_CODE`, the cursor) and discards the buffered input, with the bytes that
arrived since the start code was read. -/
theorem C7_nonzero_start_code (dmx : dmx_struct_t) (b : uint8_t) (rest : List uint8_t)
    (n : Nat) (late : List uint8_t) (hs : dmx.state = .WAIT_START_CODE) (hb : b ≠ 0) :
    ∃ w, dmx_task_step dmx (b :: rest) ⟨.UART_DATA, n⟩ late = .ok w ∧
      w.1.channel_data = dmx.channel_data ∧ w.1.state = .WAIT_START_CODE ∧
      w.1.current_channel = dmx.current_channel ∧ w.2 = [] :=
  ⟨_, step_data_start_nonzero dmx b rest n late hs hb, rfl, hs, rfl, rfl⟩

theorem C7_nonzero_start_code_witness :
    ∃ w, dmx_task_step { calloc_dmx with state := .WAIT_START_CODE } [0xCC, 1, 2]
        ⟨.UART_DATA, 3⟩ [4] = .ok w ∧
      w.1.channel_data = calloc_dmx.channel_data ∧ w.1.state = .WAIT_START_CODE ∧
      w.1.current_channel = 0 ∧ w.2 = [] :=
  C7_nonzero_start_code { calloc_dmx with state := .WAIT_START_CODE } 0xCC [1, 2] 3 [4] rfl
    (by decide)

/-- C8 (the code departs from the claim): in `WAIT_START_CODE` a `Data(n)` event with
start code 0 adds `n - 1` to `current_channel` instead of setting it to `n - 1`. After
`[Break, Data(0, 1, 2), Break]` on a fresh receiver the state is `WAIT_START_CODE` with
`current_channel = 2`; `Data(2)` with the bytes `0x00, 0xAA` then stores `0xAA` in slot 1,
goes to `RECEIVING_CHANNELS` and leaves `current_channel = 3`, not `n - 1 = 1`. -/
theorem C8_start_code_adds_to_cursor :
    ∃ w0, dmx_task calloc_dmx [] [Break, Data [0, 1, 2], Break] = .ok w0 ∧
      w0.1.state = .WAIT_START_CODE ∧ w0.1.current_channel = 2 ∧ w0.2 = [] ∧
      ∃ w1, dmx_task_step w0.1 [0, 0xAA] ⟨.UART_DATA, 2⟩ [] = .ok w1 ∧
        w1.1.state = .RECEIVING_CHANNELS ∧ w1.1.current_channel = 3 ∧
        dmx_get_value (some w1.1) 1 = 0xAA :=
  ⟨_, rfl, by decide, by decide, by decide, _, rfl, by decide, by decide, by decide⟩

/-- C9: in `RECEIVING_CHANNELS` with `current_channel = k < 512`, a `Data(n)` event that
finds at least `n` bytes buffered (in a buffer of at most `UART_BUFFER_SIZE` bytes)
stores the first `min n (512 - k)` buffered bytes at the offsets `k ..`, leaves the other
slots as they were, sets `current_channel` to `k + n` (not clamped) and stays in
`RECEIVING_CHANNELS`; the bytes it did not read stay buffered. -/
theorem C9_receiving_below_512 (dmx : dmx_struct_t) (rx : List uint8_t) (n k : Nat)
    (hs : dmx.state = .RECEIVING_CHANNELS) (hcc : dmx.current_channel = k) (hk : k < 512)
    (hn : n ≤ rx.length) (hcap : rx.length ≤ UART_BUFFER_SIZE) (late : List uint8_t) :
    ∃ w, dmx_task_step dmx rx ⟨.UART_DATA, n⟩ late = .ok w ∧
      w.1.state = .RECEIVING_CHANNELS ∧ w.1.current_channel = k + n ∧
      (∀ i : Fin 512, k ≤ i.val → i.val < k + min n (512 - k) →
          rx[i.val - k]? = some (w.1.channel_data i)) ∧
      (∀ i : Fin 512, i.val < k ∨ k + min n (512 - k) ≤ i.val →
          w.1.channel_data i = dmx.channel_data i) ∧
      w.2 = rx.drop (min n (512 - k)) := by
  subst hcc
  have hlen : (rx.take (MIN n (512 - dmx.current_channel))).length =
      min n (512 - dmx.current_channel) := by
    rw [MIN_eq_min, List.length_take]
    omega
  refine ⟨_, step_data_receiving dmx rx n late hs hk, hs, ?_, ?_, ?_, ?_⟩
  · apply size_add_small
    unfold UART_BUFFER_SIZE at hcap
    simp only [SIZE_T_MOD]
    omega
  · intro i h1 h2
    have h := write_at_inside dmx.channel_data dmx.current_channel
      (rx.take (MIN n (512 - dmx.current_channel))) i h1 (by rw [hlen]; exact h2)
    rw [List.getElem?_take] at h
    rw [if_pos (by rw [MIN_eq_min]; omega)] at h
    exact h
  · intro i h
    rcases h with h | h
    · exact write_at_below _ _ _ i h
    · exact write_at_above _ _ _ i (by rw [hlen]; exact h)
  · show rx.drop (MIN n (512 - dmx.current_channel)) = _
    rw [MIN_eq_min]

theorem C9_receiving_below_512_witness :
    ∃ w, dmx_task_step { calloc_dmx with state := .RECEIVING_CHANNELS, current_channel := 510 }
        [1, 2, 3, 4] ⟨.UART_DATA, 4⟩ [5] = .ok w ∧
      w.1.state = .RECEIVING_CHANNELS ∧ w.1.current_channel = 510 + 4 ∧
      (∀ i : Fin 512, 510 ≤ i.val → i.val < 510 + min 4 (512 - 510) →
          [1, 2, 3, 4][i.val - 510]? = some (w.1.channel_data i)) ∧
      (∀ i : Fin 512, i.val < 510 ∨ 510 + min 4 (512 - 510) ≤ i.val →
          w.1.channel_data i = calloc_dmx.channel_data i) ∧
      w.2 = [1, 2, 3, 4].drop (min 4 (512 - 510)) :=
  C9_receiving_below_512 { calloc_dmx with state := .RECEIVING_CHANNELS, current_channel := 510 }
    [1, 2, 3, 4] 4 510 rfl rfl (by decide) (by decide) (by decide) [5]

set_option maxRecDepth 100000 in
/-- C10 (the code departs from the claim): in `RECEIVING_CHANNELS` with
`current_channel ≥ 512` a `Data(n)` event discards the input, leaves the table as it was
and goes to `WAIT_BREAK`, but it does not reset `current_channel`: the code falls through
to `current_channel += event.size`. After `[Break, Data(513)]` on a fresh receiver the
cursor is 512, and a further `Data(1)` leaves it at 513. -/
theorem C10_oversize_keeps_counting :
    ∃ w0, dmx_task calloc_dmx [] [Break, Data cyclic_frame] = .ok w0 ∧
      w0.1.state = .RECEIVING_CHANNELS ∧ w0.1.current_channel = 512 ∧
      ∃ w1, dmx_task_step w0.1 (w0.2 ++ [7]) ⟨.UART_DATA, 1⟩ [] = .ok w1 ∧
        w1.1.state = .WAIT_BREAK ∧ w1.1.current_channel = 513 ∧ w1.2 = [] ∧
        w1.1.channel_data = w0.1.channel_data :=
  ⟨_, rfl, by decide, by decide,
    _, step_data_receiving_full _ _ 1 (by decide) (by decide), rfl, by decide, rfl, rfl⟩

end Dmx
